import Mathlib

/-!
# Wafer layout planner: shallow embedding and verification

Shallow embedding of the core placement-and-search algorithm of
`wafer-layout.py` (position generation over a lattice inside a circular
wafer with a bottom exclusion notch, balance scoring, symmetry check,
and the three-objective offset search), with theorems settling the
specification's claims.  Real arithmetic is modelled with `ℚ`.
-/

namespace WaferLayout

/-- The bottom exclusion boundary `-150 + 7.5` (i.e. -142.5 mm) from
`generate_positions`. -/
def exclusion_bottom : ℚ := -150 + 7.5

/-- The four-corner circle test from the inner loop of `generate_positions`:
all four corners `(x ± width/2, y ± height/2)` must satisfy
`cx² + cy² ≤ effective_radius²`.  The Python code iterates
`sx in (-1, 1)`, `sy in (-1, 1)` with early exit; the result is the
conjunction over the four sign pairs. -/
def corners_ok (x y width height effective_radius : ℚ) : Bool :=
  [((-1 : ℚ), (-1 : ℚ)), (-1, 1), (1, -1), (1, 1)].all fun s =>
    decide ((x + s.1 * width / 2) ^ 2 + (y + s.2 * height / 2) ^ 2 ≤ effective_radius ^ 2)

/-- The integer range `range(lo, hi + 1)` used for the lattice indices. -/
def gridRange (lo hi : ℤ) : List ℤ :=
  (List.range (hi + 1 - lo).toNat).map fun (k : ℕ) => lo + (k : ℤ)

/-- `generate_positions(dx, dy, width, height, spacing, effective_radius)`:
periods `width + spacing/2` and `height + spacing/2`, lattice index bounds
via ceil/floor, then for each lattice point keep it iff its lower edge does
not cross the bottom exclusion line and all four corners fit in the
effective area. -/
def generate_positions (dx dy width height spacing effective_radius : ℚ) :
    List (ℚ × ℚ) :=
  let period_x := width + spacing / 2
  let period_y := height + spacing / 2
  let max_x_offset := effective_radius - width / 2
  let max_y_offset := effective_radius - height / 2
  let i_min : ℤ := ⌈(-max_x_offset - dx) / period_x⌉
  let i_max : ℤ := ⌊(max_x_offset - dx) / period_x⌋
  let j_min : ℤ := ⌈(-max_y_offset - dy) / period_y⌉
  let j_max : ℤ := ⌊(max_y_offset - dy) / period_y⌋
  (gridRange i_min i_max).flatMap fun (i : ℤ) =>
    let x := dx + (i : ℚ) * period_x
    (gridRange j_min j_max).filterMap fun (j : ℤ) =>
      let y := dy + (j : ℚ) * period_y
      if y - height / 2 < exclusion_bottom then none
      else if corners_ok x y width height effective_radius then some (x, y)
      else none

/-- Rounding to six decimal places, The Python `round(x, 6)` built-in:
round half to even (banker's rounding) on the scaled value. -/
def round_half_even (q : ℚ) : ℤ :=
  if q - ⌊q⌋ < 1 / 2 then ⌊q⌋
  else if 1 / 2 < q - ⌊q⌋ then ⌊q⌋ + 1
  else if 2 ∣ ⌊q⌋ then ⌊q⌋ else ⌊q⌋ + 1

/-- `round(q, 6)` on exact rationals. -/
def round6 (q : ℚ) : ℚ := (round_half_even (q * 1000000) : ℚ) / 1000000

/-- The rounded coordinate set built by `is_symmetric` (a Python set:
rounded pairs, deduplicated). -/
def roundedSet (positions : List (ℚ × ℚ)) : List (ℚ × ℚ) :=
  (positions.map fun p => (round6 p.1, round6 p.2)).dedup

/-- `is_symmetric(positions)`: every member `(x, y)` of the rounded set must
have both its Y-axis mirror `(-x, y)` and its X-axis mirror `(x, -y)` in the
set. -/
def is_symmetric (positions : List (ℚ × ℚ)) : Bool :=
  let pos_set := roundedSet positions
  pos_set.all fun p =>
    decide ((-p.1, p.2) ∈ pos_set) && decide ((p.1, -p.2) ∈ pos_set)

/-- Python's `max(l, default=0)`. -/
def max_default (l : List ℚ) : ℚ :=
  match l with
  | [] => 0
  | x :: xs => xs.foldl max x

/-- Python's `min(l, default=0)`. -/
def min_default (l : List ℚ) : ℚ :=
  match l with
  | [] => 0
  | x :: xs => xs.foldl min x

/-- `calculate_balance(positions, effective_radius)`: `0.0` for the empty
list, else `1 - (|maxX + minX| + |maxY + minY|) / (2·effective_radius)`. -/
def calculate_balance (positions : List (ℚ × ℚ)) (effective_radius : ℚ) : ℚ :=
  if positions.isEmpty then 0
  else
    let x_vals := positions.map Prod.fst
    let y_vals := positions.map Prod.snd
    let max_x := max_default x_vals
    let min_x := min_default x_vals
    let max_y := max_default y_vals
    let min_y := min_default y_vals
    let h_diff := |max_x + min_x|
    let v_diff := |max_y + min_y|
    1 - (h_diff + v_diff) / (2 * effective_radius)

/-- One named layout: die count, positions, balance score (the dicts built
by `find_optimal_layouts`). -/
structure LayoutResult where
  count : ℕ
  positions : List (ℚ × ℚ)
  balance : ℚ
  deriving DecidableEq, Repr

/-- Package a position list into a `LayoutResult` for a given effective
radius, as every update site in `find_optimal_layouts` does. -/
def mkLayout (positions : List (ℚ × ℚ)) (effective_radius : ℚ) : LayoutResult :=
  ⟨positions.length, positions, calculate_balance positions effective_radius⟩

/-- The initial best-so-far record `{"count": 0, "positions": [], "balance": 0}`. -/
def best0 : LayoutResult := ⟨0, [], 0⟩

/-- `np.linspace(0, b, 10)`: the ten evenly spaced samples `b·k/9`, `k = 0..9`. -/
def linspace10 (b : ℚ) : List ℚ :=
  (List.range 10).map fun k => b * (k : ℚ) / 9

/-- The offsets evaluated by the search loop of `find_optimal_layouts`:
for each `dx` in `linspace(0, (spacing/2+width)/2, 10)` and
`dy` in `linspace(0, (spacing/2+height)/2, 10)`, the four sign quadrants
`(dx,dy), (-dx,dy), (dx,-dy), (-dx,-dy)` in that order. -/
def offsets (width height spacing : ℚ) : List (ℚ × ℚ) :=
  (linspace10 ((spacing / 2 + width) / 2)).flatMap fun dx =>
    (linspace10 ((spacing / 2 + height) / 2)).flatMap fun dy =>
      [(dx, dy), (-dx, dy), (dx, -dy), (-dx, -dy)]

/-- One iteration of the search loop: update the running max-count best
(strictly greater count only) and, when the position set is symmetric, the
running symmetric best (greater count, or equal count with greater
balance). -/
def searchStep (width height spacing effective_radius : ℚ)
    (acc : LayoutResult × LayoutResult) (o : ℚ × ℚ) :
    LayoutResult × LayoutResult :=
  let ps := generate_positions o.1 o.2 width height spacing effective_radius
  let cand := mkLayout ps effective_radius
  let best_max := if acc.1.count < cand.count then cand else acc.1
  let best_sym :=
    if is_symmetric ps then
      if acc.2.count < cand.count ∨
          (cand.count = acc.2.count ∧ acc.2.balance < cand.balance) then cand
      else acc.2
    else acc.2
  (best_max, best_sym)

/-- `find_optimal_layouts(width, height, spacing, effective_radius)`:
evaluate the centered layout first (it seeds the max-count best when
non-empty), sweep the sampled offsets updating both running bests, and
return `(best_max, best_sym, centered)`. -/
def find_optimal_layouts (width height spacing effective_radius : ℚ) :
    LayoutResult × LayoutResult × LayoutResult :=
  let centered := generate_positions 0 0 width height spacing effective_radius
  let init_max := if 0 < centered.length then mkLayout centered effective_radius else best0
  let p := (offsets width height spacing).foldl
    (searchStep width height spacing effective_radius) (init_max, best0)
  (p.1, p.2, mkLayout centered effective_radius)

/-- All layouts evaluated during one `find_optimal_layouts` run: the
centered layout plus one layout per sampled quadrant offset. -/
def evaluatedLayouts (width height spacing effective_radius : ℚ) :
    List LayoutResult :=
  mkLayout (generate_positions 0 0 width height spacing effective_radius) effective_radius ::
    (offsets width height spacing).map fun o =>
      mkLayout (generate_positions o.1 o.2 width height spacing effective_radius) effective_radius

/-- The two validation failures reported by the main pipeline before any
search. -/
inductive PipelineError where
  | invalidExclusion
  | dieTooLarge
  deriving DecidableEq, Repr

/-- The main pipeline: derive `effective_radius = 150 - edge_exclusion`,
fail fast on `effective_radius ≤ 0`, then on
`(width/2)² + (height/2)² > effective_radius²`, and only otherwise run the
layout search. -/
def run_pipeline (width height spacing edge_exclusion : ℚ) :
    Except PipelineError (LayoutResult × LayoutResult × LayoutResult) :=
  let effective_radius := 150 - edge_exclusion
  if effective_radius ≤ 0 then .error .invalidExclusion
  else if (width / 2) ^ 2 + (height / 2) ^ 2 > effective_radius ^ 2 then
    .error .dieTooLarge
  else .ok (find_optimal_layouts width height spacing effective_radius)

/-- The update applied to the running max-count best at each loop step
(the first component of `searchStep`). -/
def maxStep (width height spacing effective_radius : ℚ)
    (b : LayoutResult) (o : ℚ × ℚ) : LayoutResult :=
  let cand := mkLayout (generate_positions o.1 o.2 width height spacing effective_radius)
    effective_radius
  if b.count < cand.count then cand else b

/-- The well-formedness invariant of every `LayoutResult` record the search
builds: `count` is the number of positions and `balance` is the balance of
those positions. -/
def wfLayout (effective_radius : ℚ) (L : LayoutResult) : Prop :=
  L.count = L.positions.length ∧
  L.balance = calculate_balance L.positions effective_radius

/-- The selection rule claimed for the max-count objective, at one input:
every evaluated layout (centered plus every sampled quadrant offset) has
count at most the retained max-count layout's count, and any evaluated
layout tying that count has balance at most the retained layout's
balance. -/
def maxCountSelection (width height spacing effective_radius : ℚ) : Prop :=
  ∀ L ∈ evaluatedLayouts width height spacing effective_radius,
    L.count ≤ (find_optimal_layouts width height spacing effective_radius).1.count ∧
    (L.count = (find_optimal_layouts width height spacing effective_radius).1.count →
      L.balance ≤ (find_optimal_layouts width height spacing effective_radius).1.balance)

/-! ## Helper lemmas -/

theorem calculate_balance_nil (effective_radius : ℚ) :
    calculate_balance [] effective_radius = 0 := rfl

theorem if_count_lt (b cand : LayoutResult) :
    (if b.count < cand.count then cand else b).count = max b.count cand.count := by
  split_ifs with h
  · exact (Nat.max_eq_right (Nat.le_of_lt h)).symm
  · exact (Nat.max_eq_left (Nat.le_of_not_lt h)).symm

theorem searchStep_fst (width height spacing effective_radius : ℚ)
    (acc : LayoutResult × LayoutResult) (o : ℚ × ℚ) :
    (searchStep width height spacing effective_radius acc o).1 =
      maxStep width height spacing effective_radius acc.1 o := rfl

theorem foldl_searchStep_fst (width height spacing effective_radius : ℚ) :
    ∀ (l : List (ℚ × ℚ)) (acc : LayoutResult × LayoutResult),
      (l.foldl (searchStep width height spacing effective_radius) acc).1 =
        l.foldl (maxStep width height spacing effective_radius) acc.1
  | [], _ => rfl
  | o :: t, acc => by
    rw [List.foldl_cons, List.foldl_cons,
      foldl_searchStep_fst width height spacing effective_radius t, searchStep_fst]

theorem maxStep_count (width height spacing effective_radius : ℚ)
    (b : LayoutResult) (o : ℚ × ℚ) :
    (maxStep width height spacing effective_radius b o).count =
      max b.count (generate_positions o.1 o.2 width height spacing effective_radius).length :=
  if_count_lt b _

theorem foldl_maxStep_count_mono (width height spacing effective_radius : ℚ) :
    ∀ (l : List (ℚ × ℚ)) (b : LayoutResult),
      b.count ≤ (l.foldl (maxStep width height spacing effective_radius) b).count
  | [], _ => le_refl _
  | o :: t, b => by
    rw [List.foldl_cons]
    refine le_trans ?_ (foldl_maxStep_count_mono width height spacing effective_radius t _)
    rw [maxStep_count]
    exact Nat.le_max_left _ _

theorem foldl_maxStep_count_ge (width height spacing effective_radius : ℚ) :
    ∀ (l : List (ℚ × ℚ)) (b : LayoutResult), ∀ o ∈ l,
      (generate_positions o.1 o.2 width height spacing effective_radius).length ≤
        (l.foldl (maxStep width height spacing effective_radius) b).count
  | [], _, o, ho => absurd ho (List.not_mem_nil o)
  | o :: t, b, o', ho' => by
    rw [List.foldl_cons]
    rcases List.mem_cons.mp ho' with rfl | h
    · refine le_trans ?_ (foldl_maxStep_count_mono width height spacing effective_radius t _)
      rw [maxStep_count]
      exact Nat.le_max_right _ _
    · exact foldl_maxStep_count_ge width height spacing effective_radius t _ o' h

theorem foldl_maxStep_stationary (width height spacing effective_radius : ℚ) :
    ∀ (l : List (ℚ × ℚ)) (b : LayoutResult),
      (∀ o ∈ l, (generate_positions o.1 o.2 width height spacing effective_radius).length ≤
        b.count) →
      l.foldl (maxStep width height spacing effective_radius) b = b
  | [], _, _ => rfl
  | o :: t, b, hall => by
    rw [List.foldl_cons]
    have hstep : maxStep width height spacing effective_radius b o = b := by
      simp only [maxStep, mkLayout]
      rw [if_neg (Nat.not_lt.mpr (hall o (List.mem_cons_self o t)))]
    rw [hstep]
    exact foldl_maxStep_stationary width height spacing effective_radius t b
      (fun o' ho' => hall o' (List.mem_cons_of_mem o ho'))

theorem foldl_maxStep_count_le_count (width height spacing er' er : ℚ) :
    ∀ (l : List (ℚ × ℚ)) (b' b : LayoutResult),
      b'.count ≤ b.count →
      (∀ o ∈ l, (generate_positions o.1 o.2 width height spacing er').length ≤
        (generate_positions o.1 o.2 width height spacing er).length) →
      (l.foldl (maxStep width height spacing er') b').count ≤
        (l.foldl (maxStep width height spacing er) b).count
  | [], _, _, hb, _ => hb
  | o :: t, b', b, hb, hall => by
    rw [List.foldl_cons, List.foldl_cons]
    refine foldl_maxStep_count_le_count width height spacing er' er t _ _ ?_
      (fun o' ho' => hall o' (List.mem_cons_of_mem o ho'))
    rw [maxStep_count, maxStep_count]
    exact max_le_max hb (hall o (List.mem_cons_self o t))

theorem init_max_count (ps : List (ℚ × ℚ)) (effective_radius : ℚ) :
    (if 0 < ps.length then mkLayout ps effective_radius else best0).count = ps.length := by
  split_ifs with h
  · rfl
  · show 0 = ps.length
    omega

theorem find_optimal_fst (width height spacing effective_radius : ℚ) :
    (find_optimal_layouts width height spacing effective_radius).1 =
      (offsets width height spacing).foldl (maxStep width height spacing effective_radius)
        (if 0 < (generate_positions 0 0 width height spacing effective_radius).length
          then mkLayout (generate_positions 0 0 width height spacing effective_radius)
            effective_radius
          else best0) := by
  rw [show (find_optimal_layouts width height spacing effective_radius).1 =
      ((offsets width height spacing).foldl (searchStep width height spacing effective_radius)
        (if 0 < (generate_positions 0 0 width height spacing effective_radius).length
          then mkLayout (generate_positions 0 0 width height spacing effective_radius)
            effective_radius
          else best0, best0)).1 from rfl]
  rw [foldl_searchStep_fst]

theorem wfLayout_mkLayout (ps : List (ℚ × ℚ)) (effective_radius : ℚ) :
    wfLayout effective_radius (mkLayout ps effective_radius) := ⟨rfl, rfl⟩

theorem wfLayout_best0 (effective_radius : ℚ) : wfLayout effective_radius best0 := ⟨rfl, rfl⟩

theorem searchStep_wf (width height spacing effective_radius : ℚ)
    (acc : LayoutResult × LayoutResult) (o : ℚ × ℚ)
    (h1 : wfLayout effective_radius acc.1) (h2 : wfLayout effective_radius acc.2) :
    wfLayout effective_radius (searchStep width height spacing effective_radius acc o).1 ∧
    wfLayout effective_radius (searchStep width height spacing effective_radius acc o).2 := by
  simp only [searchStep]
  constructor
  · split_ifs
    · exact wfLayout_mkLayout _ _
    · exact h1
  · split_ifs
    · exact wfLayout_mkLayout _ _
    · exact h2
    · exact h2

theorem foldl_searchStep_wf (width height spacing effective_radius : ℚ) :
    ∀ (l : List (ℚ × ℚ)) (acc : LayoutResult × LayoutResult),
      wfLayout effective_radius acc.1 → wfLayout effective_radius acc.2 →
      wfLayout effective_radius
        ((l.foldl (searchStep width height spacing effective_radius) acc)).1 ∧
      wfLayout effective_radius
        ((l.foldl (searchStep width height spacing effective_radius) acc)).2
  | [], _, h1, h2 => ⟨h1, h2⟩
  | o :: t, acc, h1, h2 => by
    rw [List.foldl_cons]
    obtain ⟨g1, g2⟩ := searchStep_wf width height spacing effective_radius acc o h1 h2
    exact foldl_searchStep_wf width height spacing effective_radius t _ g1 g2

theorem searchStep_snd_count_le_fst (width height spacing effective_radius : ℚ)
    (acc : LayoutResult × LayoutResult) (o : ℚ × ℚ)
    (hle : acc.2.count ≤ acc.1.count) :
    (searchStep width height spacing effective_radius acc o).2.count ≤
      (searchStep width height spacing effective_radius acc o).1.count := by
  simp only [searchStep]
  rw [if_count_lt]
  split_ifs
  · exact Nat.le_max_right _ _
  · exact le_trans hle (Nat.le_max_left _ _)
  · exact le_trans hle (Nat.le_max_left _ _)

theorem foldl_searchStep_snd_le_fst (width height spacing effective_radius : ℚ) :
    ∀ (l : List (ℚ × ℚ)) (acc : LayoutResult × LayoutResult),
      acc.2.count ≤ acc.1.count →
      (l.foldl (searchStep width height spacing effective_radius) acc).2.count ≤
        (l.foldl (searchStep width height spacing effective_radius) acc).1.count
  | [], _, hle => hle
  | o :: t, acc, hle => by
    rw [List.foldl_cons]
    exact foldl_searchStep_snd_le_fst width height spacing effective_radius t _
      (searchStep_snd_count_le_fst width height spacing effective_radius acc o hle)

/-! ## Claims -/

/-- C4 (counterexample): the claim says that for the empty `PositionSet` and
any positive effective radius the balance score equals `1`.  At the concrete
radius `5` the code returns `0.0` for the empty list (the early return in
`calculate_balance`), so the claim is false. -/
theorem C4_counterexample : ¬ ((0 : ℚ) < 5 → calculate_balance [] 5 = 1) := by
  intro hcl
  have h := hcl (by norm_num)
  rw [calculate_balance_nil] at h
  exact absurd h (by norm_num)

/-- C4 (amended): for the empty `PositionSet` and every effective radius,
`calculate_balance` returns `0` (the function short-circuits on the empty
list), not `1`. -/
theorem C4_empty_balance_zero (effective_radius : ℚ) :
    calculate_balance [] effective_radius = 0 := rfl

/-- C7: the centered layout (offset `(0,0)`) is always evaluated and the
returned `LayoutSet`'s third component is exactly that layout, for every
input, regardless of the offset sampling; it is also one of the evaluated
layouts, and its count is a natural number, hence `≥ 0`. -/
theorem C7_centered_always_included (width height spacing effective_radius : ℚ) :
    (find_optimal_layouts width height spacing effective_radius).2.2 =
      mkLayout (generate_positions 0 0 width height spacing effective_radius)
        effective_radius ∧
    (find_optimal_layouts width height spacing effective_radius).2.2 ∈
      evaluatedLayouts width height spacing effective_radius ∧
    0 ≤ (find_optimal_layouts width height spacing effective_radius).2.2.count := by
  refine ⟨rfl, ?_, Nat.zero_le _⟩
  rw [show (find_optimal_layouts width height spacing effective_radius).2.2 =
      mkLayout (generate_positions 0 0 width height spacing effective_radius)
        effective_radius from rfl]
  exact List.mem_cons_self _ _

/-- C9: `is_symmetric` returns `true` iff in the set of positions with
coordinates rounded to the 1e-6 tolerance every member `(x, y)` has both
`(-x, y)` and `(x, -y)` in the set; in particular the empty `PositionSet`
is vacuously symmetric. -/
theorem C9_is_symmetric_iff (ps : List (ℚ × ℚ)) :
    (is_symmetric ps = true ↔
      ∀ p ∈ roundedSet ps,
        (-p.1, p.2) ∈ roundedSet ps ∧ (p.1, -p.2) ∈ roundedSet ps) ∧
    is_symmetric ([] : List (ℚ × ℚ)) = true := by
  constructor
  · simp [is_symmetric, List.all_eq_true]
  · rfl

/-- C10: each of the three returned `LayoutResult`s (max-count, symmetric,
centered) satisfies the internal consistency invariant: `count` equals the
length of its `positions` list and `balance` equals
`calculate_balance positions effectiveRadius` (this includes the degenerate
never-updated record with count `0`, empty positions and balance `0`). -/
theorem C10_layout_wellformed (width height spacing effective_radius : ℚ) :
    wfLayout effective_radius (find_optimal_layouts width height spacing effective_radius).1 ∧
    wfLayout effective_radius
      (find_optimal_layouts width height spacing effective_radius).2.1 ∧
    wfLayout effective_radius
      (find_optimal_layouts width height spacing effective_radius).2.2 := by
  have hinit : wfLayout effective_radius
      (if 0 < (generate_positions 0 0 width height spacing effective_radius).length
        then mkLayout (generate_positions 0 0 width height spacing effective_radius)
          effective_radius
        else best0) := by
    split_ifs
    · exact wfLayout_mkLayout _ _
    · exact wfLayout_best0 _
  obtain ⟨h1, h2⟩ := foldl_searchStep_wf width height spacing effective_radius
    (offsets width height spacing)
    (if 0 < (generate_positions 0 0 width height spacing effective_radius).length
      then mkLayout (generate_positions 0 0 width height spacing effective_radius)
        effective_radius
      else best0, best0) hinit (wfLayout_best0 effective_radius)
  exact ⟨h1, h2, wfLayout_mkLayout _ _⟩

/-- C2: for every valid input (positive die dimensions, spacing and
effective radius), the max-count layout's count dominates both the centered
layout's count and the symmetric layout's count. -/
theorem C2_max_count_dominates (width height spacing effective_radius : ℚ)
    (hw : 0 < width) (hh : 0 < height) (hs : 0 < spacing) (her : 0 < effective_radius) :
    (find_optimal_layouts width height spacing effective_radius).2.2.count ≤
      (find_optimal_layouts width height spacing effective_radius).1.count ∧
    (find_optimal_layouts width height spacing effective_radius).2.1.count ≤
      (find_optimal_layouts width height spacing effective_radius).1.count := by
  constructor
  · rw [find_optimal_fst]
    calc (find_optimal_layouts width height spacing effective_radius).2.2.count
        = (generate_positions 0 0 width height spacing effective_radius).length := rfl
      _ = (if 0 < (generate_positions 0 0 width height spacing effective_radius).length
            then mkLayout (generate_positions 0 0 width height spacing effective_radius)
              effective_radius
            else best0).count := (init_max_count _ _).symm
      _ ≤ _ := foldl_maxStep_count_mono width height spacing effective_radius _ _
  · exact foldl_searchStep_snd_le_fst width height spacing effective_radius
      (offsets width height spacing)
      (if 0 < (generate_positions 0 0 width height spacing effective_radius).length
        then mkLayout (generate_positions 0 0 width height spacing effective_radius)
          effective_radius
        else best0, best0) (Nat.zero_le _)

/-- C2 witness: the dominance instantiated at the concrete valid input
`width = 8`, `height = 2`, `spacing = 1/5`, `effectiveRadius = 5`. -/
theorem C2_witness :
    (0 : ℚ) < 8 ∧ (0 : ℚ) < 2 ∧ (0 : ℚ) < 1/5 ∧ (0 : ℚ) < 5 ∧
    ((find_optimal_layouts 8 2 (1/5) 5).2.2.count ≤
      (find_optimal_layouts 8 2 (1/5) 5).1.count ∧
     (find_optimal_layouts 8 2 (1/5) 5).2.1.count ≤
      (find_optimal_layouts 8 2 (1/5) 5).1.count) :=
  ⟨by norm_num, by norm_num, by norm_num, by norm_num,
    C2_max_count_dominates 8 2 (1/5) 5 (by norm_num) (by norm_num) (by norm_num)
      (by norm_num)⟩

/-- C6: the pipeline reports `invalidExclusion` iff
`effectiveRadius = 150 - edgeExclusion ≤ 0`; when that check passes it
reports `dieTooLarge` iff `(width/2)² + (height/2)² > effectiveRadius²`;
and it runs the layout search (returning `ok` of the search result, in
which zero valid positions is just a count-0 layout, not an error) iff
both validations pass. -/
theorem C6_validation_fail_fast (width height spacing edge_exclusion : ℚ) :
    (run_pipeline width height spacing edge_exclusion = .error .invalidExclusion ↔
      150 - edge_exclusion ≤ 0) ∧
    (run_pipeline width height spacing edge_exclusion = .error .dieTooLarge ↔
      0 < 150 - edge_exclusion ∧
      (width / 2) ^ 2 + (height / 2) ^ 2 > (150 - edge_exclusion) ^ 2) ∧
    (run_pipeline width height spacing edge_exclusion =
        .ok (find_optimal_layouts width height spacing (150 - edge_exclusion)) ↔
      0 < 150 - edge_exclusion ∧
      (width / 2) ^ 2 + (height / 2) ^ 2 ≤ (150 - edge_exclusion) ^ 2) := by
  simp only [run_pipeline]
  by_cases h1 : 150 - edge_exclusion ≤ 0
  · rw [if_pos h1]
    refine ⟨iff_of_true rfl h1, ?_, ?_⟩
    · exact iff_of_false (by simp) (fun hc => absurd hc.1 (not_lt.mpr h1))
    · exact iff_of_false (by simp) (fun hc => absurd hc.1 (not_lt.mpr h1))
  · rw [if_neg h1]
    have h1' : 0 < 150 - edge_exclusion := not_le.mp h1
    by_cases h2 : (width / 2) ^ 2 + (height / 2) ^ 2 > (150 - edge_exclusion) ^ 2
    · rw [if_pos h2]
      refine ⟨iff_of_false (by simp) (fun hc => absurd h1' (not_lt.mpr hc)), ?_, ?_⟩
      · exact iff_of_true rfl ⟨h1', h2⟩
      · exact iff_of_false (by simp) (fun hc => absurd hc.2 (not_le.mpr h2))
    · rw [if_neg h2]
      refine ⟨iff_of_false (by simp) (fun hc => absurd h1' (not_lt.mpr hc)), ?_, ?_⟩
      · exact iff_of_false (by simp) (fun hc => absurd hc.2 h2)
      · exact iff_of_true rfl ⟨h1', not_lt.mp h2⟩

theorem corners_ok_iff (x y width height effective_radius : ℚ) :
    corners_ok x y width height effective_radius = true ↔
      ((x - width / 2) ^ 2 + (y - height / 2) ^ 2 ≤ effective_radius ^ 2 ∧
       (x - width / 2) ^ 2 + (y + height / 2) ^ 2 ≤ effective_radius ^ 2 ∧
       (x + width / 2) ^ 2 + (y - height / 2) ^ 2 ≤ effective_radius ^ 2 ∧
       (x + width / 2) ^ 2 + (y + height / 2) ^ 2 ≤ effective_radius ^ 2) := by
  simp [corners_ok, neg_one_mul, one_mul, neg_div, ← sub_eq_add_neg]

/-- C1: every position `(x, y)` produced by `generate_positions` satisfies
the validity predicate it was generated under: all four corners
`(x ± width/2, y ± height/2)` lie inside the circle of the effective
radius, and the lower edge does not cross the bottom exclusion line
`-150 + 7.5`. -/
theorem C1_generated_positions_valid (dx dy width height spacing effective_radius : ℚ)
    (her : 0 < effective_radius) :
    ∀ p ∈ generate_positions dx dy width height spacing effective_radius,
      ((p.1 - width / 2) ^ 2 + (p.2 - height / 2) ^ 2 ≤ effective_radius ^ 2 ∧
       (p.1 - width / 2) ^ 2 + (p.2 + height / 2) ^ 2 ≤ effective_radius ^ 2 ∧
       (p.1 + width / 2) ^ 2 + (p.2 - height / 2) ^ 2 ≤ effective_radius ^ 2 ∧
       (p.1 + width / 2) ^ 2 + (p.2 + height / 2) ^ 2 ≤ effective_radius ^ 2) ∧
      exclusion_bottom ≤ p.2 - height / 2 := by
  intro p hp
  simp only [generate_positions] at hp
  obtain ⟨i, hi, hp2⟩ := List.mem_flatMap.mp hp
  obtain ⟨j, hj, heq⟩ := List.mem_filterMap.mp hp2
  split_ifs at heq with h1 h2
  injection heq with h3
  subst h3
  exact ⟨(corners_ok_iff _ _ _ _ _).mp h2, not_lt.mp h1⟩

/-- C1 witness: at offset `(0,0)`, die `2 × 2`, spacing `1` and effective
radius `5`, the position `(0, 0)` is generated and the theorem instantiates
to the four corner bounds plus the notch bound at that position. -/
theorem C1_witness :
    (0 : ℚ) < 5 ∧
    ((0 : ℚ), (0 : ℚ)) ∈ generate_positions 0 0 2 2 1 5 ∧
    ((((0 : ℚ) - 2 / 2) ^ 2 + ((0 : ℚ) - 2 / 2) ^ 2 ≤ (5 : ℚ) ^ 2 ∧
      ((0 : ℚ) - 2 / 2) ^ 2 + ((0 : ℚ) + 2 / 2) ^ 2 ≤ (5 : ℚ) ^ 2 ∧
      ((0 : ℚ) + 2 / 2) ^ 2 + ((0 : ℚ) - 2 / 2) ^ 2 ≤ (5 : ℚ) ^ 2 ∧
      ((0 : ℚ) + 2 / 2) ^ 2 + ((0 : ℚ) + 2 / 2) ^ 2 ≤ (5 : ℚ) ^ 2) ∧
     exclusion_bottom ≤ (0 : ℚ) - 2 / 2) := by
  have hmem : ((0 : ℚ), (0 : ℚ)) ∈ generate_positions 0 0 2 2 1 5 :=
    of_decide_eq_true (by with_unfolding_all rfl)
  exact ⟨by norm_num, hmem,
    C1_generated_positions_valid 0 0 2 2 1 5 (by norm_num) (0, 0) hmem⟩

theorem le_foldl_max (l : List ℚ) (a : ℚ) :
    a ≤ l.foldl max a ∧ ∀ x ∈ l, x ≤ l.foldl max a := by
  induction l generalizing a with
  | nil => simp
  | cons b t ih =>
    simp only [List.foldl_cons]
    obtain ⟨h1, h2⟩ := ih (max a b)
    refine ⟨le_trans (le_max_left a b) h1, ?_⟩
    intro x hx
    rcases List.mem_cons.mp hx with rfl | hx
    · exact le_trans (le_max_right a x) h1
    · exact h2 x hx

theorem foldl_max_mem (l : List ℚ) (a : ℚ) :
    l.foldl max a = a ∨ l.foldl max a ∈ l := by
  induction l generalizing a with
  | nil => exact Or.inl rfl
  | cons b t ih =>
    simp only [List.foldl_cons]
    rcases ih (max a b) with h | h
    · rcases max_choice a b with hm | hm
      · exact Or.inl (by rw [h, hm])
      · exact Or.inr (by rw [h, hm]; exact List.mem_cons_self _ _)
    · exact Or.inr (List.mem_cons_of_mem _ h)

theorem foldl_min_ge (l : List ℚ) (a : ℚ) :
    l.foldl min a ≤ a ∧ ∀ x ∈ l, l.foldl min a ≤ x := by
  induction l generalizing a with
  | nil => simp
  | cons b t ih =>
    simp only [List.foldl_cons]
    obtain ⟨h1, h2⟩ := ih (min a b)
    refine ⟨le_trans h1 (min_le_left a b), ?_⟩
    intro x hx
    rcases List.mem_cons.mp hx with rfl | hx
    · exact le_trans h1 (min_le_right a x)
    · exact h2 x hx

theorem foldl_min_mem (l : List ℚ) (a : ℚ) :
    l.foldl min a = a ∨ l.foldl min a ∈ l := by
  induction l generalizing a with
  | nil => exact Or.inl rfl
  | cons b t ih =>
    simp only [List.foldl_cons]
    rcases ih (min a b) with h | h
    · rcases min_choice a b with hm | hm
      · exact Or.inl (by rw [h, hm])
      · exact Or.inr (by rw [h, hm]; exact List.mem_cons_self _ _)
    · exact Or.inr (List.mem_cons_of_mem _ h)

theorem max_default_mem {l : List ℚ} (h : l ≠ []) : max_default l ∈ l := by
  match l with
  | [] => exact absurd rfl h
  | x :: t =>
    rcases foldl_max_mem t x with hm | hm
    · rw [max_default, hm]; exact List.mem_cons_self _ _
    · exact List.mem_cons_of_mem _ hm

theorem le_max_default {l : List ℚ} {x : ℚ} (hx : x ∈ l) : x ≤ max_default l := by
  match l with
  | [] => exact absurd hx (List.not_mem_nil x)
  | a :: t =>
    rcases List.mem_cons.mp hx with rfl | hx
    · exact (le_foldl_max t x).1
    · exact (le_foldl_max t a).2 x hx

theorem min_default_mem {l : List ℚ} (h : l ≠ []) : min_default l ∈ l := by
  match l with
  | [] => exact absurd rfl h
  | x :: t =>
    rcases foldl_min_mem t x with hm | hm
    · rw [min_default, hm]; exact List.mem_cons_self _ _
    · exact List.mem_cons_of_mem _ hm

theorem min_default_le {l : List ℚ} {x : ℚ} (hx : x ∈ l) : min_default l ≤ x := by
  match l with
  | [] => exact absurd hx (List.not_mem_nil x)
  | a :: t =>
    rcases List.mem_cons.mp hx with rfl | hx
    · exact (foldl_min_ge t x).1
    · exact (foldl_min_ge t a).2 x hx

theorem max_add_min_eq_zero {l : List ℚ} (hne : l ≠ [])
    (hsym : ∀ x ∈ l, -x ∈ l) : max_default l + min_default l = 0 := by
  have h1 : min_default l ≤ -max_default l :=
    min_default_le (hsym _ (max_default_mem hne))
  have h2 : -min_default l ≤ max_default l :=
    le_max_default (hsym _ (min_default_mem hne))
  linarith

/-- C8: every non-empty `PositionSet` symmetric about the origin (each
member `(x, y)` has both `(-x, y)` and `(x, -y)` in the set) has balance
score exactly `1`: the extrema cancel, so `hDiff = vDiff = 0`. -/
theorem C8_symmetric_balance_one (ps : List (ℚ × ℚ)) (effective_radius : ℚ)
    (hne : ps ≠ [])
    (hsym : ∀ p ∈ ps, (-p.1, p.2) ∈ ps ∧ (p.1, -p.2) ∈ ps) :
    calculate_balance ps effective_radius = 1 := by
  have hxs : ∀ x ∈ ps.map Prod.fst, -x ∈ ps.map Prod.fst := by
    intro x hx
    obtain ⟨p, hp, rfl⟩ := List.mem_map.mp hx
    exact List.mem_map.mpr ⟨(-p.1, p.2), (hsym p hp).1, rfl⟩
  have hys : ∀ y ∈ ps.map Prod.snd, -y ∈ ps.map Prod.snd := by
    intro y hy
    obtain ⟨p, hp, rfl⟩ := List.mem_map.mp hy
    exact List.mem_map.mpr ⟨(p.1, -p.2), (hsym p hp).2, rfl⟩
  have hxne : ps.map Prod.fst ≠ [] := by simp [hne]
  have hyne : ps.map Prod.snd ≠ [] := by simp [hne]
  have hxx := max_add_min_eq_zero hxne hxs
  have hyy := max_add_min_eq_zero hyne hys
  simp [calculate_balance, hne, hxx, hyy]

/-- C8 witness: the concrete symmetric four-point set
`{(1,2), (-1,2), (1,-2), (-1,-2)}` with effective radius `5` has balance
exactly `1`. -/
theorem C8_witness :
    ([((1 : ℚ), (2 : ℚ)), (-1, 2), (1, -2), (-1, -2)] ≠ []) ∧
    (∀ p ∈ [((1 : ℚ), (2 : ℚ)), (-1, 2), (1, -2), (-1, -2)],
      (-p.1, p.2) ∈ [((1 : ℚ), (2 : ℚ)), (-1, 2), (1, -2), (-1, -2)] ∧
      (p.1, -p.2) ∈ [((1 : ℚ), (2 : ℚ)), (-1, 2), (1, -2), (-1, -2)]) ∧
    calculate_balance [((1 : ℚ), (2 : ℚ)), (-1, 2), (1, -2), (-1, -2)] 5 = 1 := by
  have hne : [((1 : ℚ), (2 : ℚ)), (-1, 2), (1, -2), (-1, -2)] ≠ [] := by simp
  have hsym : ∀ p ∈ [((1 : ℚ), (2 : ℚ)), (-1, 2), (1, -2), (-1, -2)],
      (-p.1, p.2) ∈ [((1 : ℚ), (2 : ℚ)), (-1, 2), (1, -2), (-1, -2)] ∧
      (p.1, -p.2) ∈ [((1 : ℚ), (2 : ℚ)), (-1, 2), (1, -2), (-1, -2)] :=
    of_decide_eq_true (by with_unfolding_all rfl)
  exact ⟨hne, hsym, C8_symmetric_balance_one _ 5 hne hsym⟩

theorem sublist_filterMap_mono {α β : Type _} {f g : α → Option β} {l' l : List α}
    (hl : l'.Sublist l) (hfg : ∀ a b, f a = some b → g a = some b) :
    (l'.filterMap f).Sublist (l.filterMap g) := by
  induction hl with
  | slnil => simp
  | cons a _ ih =>
    cases hga : g a with
    | none => rw [List.filterMap_cons_none hga]; exact ih
    | some b => rw [List.filterMap_cons_some hga]; exact ih.trans (List.sublist_cons_self b _)
  | cons₂ a _ ih =>
    cases hfa : f a with
    | none =>
      rw [List.filterMap_cons_none hfa]
      cases hga : g a with
      | none => rw [List.filterMap_cons_none hga]; exact ih
      | some b =>
        rw [List.filterMap_cons_some hga]
        exact ih.trans (List.sublist_cons_self b _)
    | some b =>
      rw [List.filterMap_cons_some hfa, List.filterMap_cons_some (hfg a b hfa)]
      exact List.Sublist.cons₂ b ih

theorem sublist_flatMap_mono {α β : Type _} {g' g : α → List β} {l' l : List α}
    (hl : l'.Sublist l) (hg : ∀ a, (g' a).Sublist (g a)) :
    (l'.flatMap g').Sublist (l.flatMap g) := by
  induction hl with
  | slnil => simp
  | cons a _ ih =>
    rw [List.flatMap_cons]
    exact ih.trans (List.sublist_append_right (g a) _)
  | cons₂ a _ ih =>
    rw [List.flatMap_cons, List.flatMap_cons]
    exact (hg a).append ih

theorem gridRange_sublist {lo lo' hi hi' : ℤ} (h1 : lo ≤ lo') (h2 : hi' ≤ hi) :
    (gridRange lo' hi').Sublist (gridRange lo hi) := by
  by_cases hcase : hi' + 1 ≤ lo'
  · have hz : (hi' + 1 - lo').toNat = 0 := by omega
    simp [gridRange, hz]
  · set d := (lo' - lo).toNat with hd
    set n' := (hi' + 1 - lo').toNat with hn'
    set n := (hi + 1 - lo).toNat with hn
    have hdn : d + n' ≤ n := by omega
    have hmap : gridRange lo' hi' =
        ((List.range n').map (d + ·)).map (fun k : ℕ => lo + (k : ℤ)) := by
      rw [gridRange, List.map_map]
      apply List.map_congr_left
      intro k _
      simp only [Function.comp_apply]
      push_cast
      omega
    rw [hmap, show gridRange lo hi = (List.range n).map (fun k : ℕ => lo + (k : ℤ)) from rfl]
    refine List.Sublist.map _ ?_
    have hsub : ((List.range n').map (d + ·)).Sublist (List.range (d + n')) := by
      rw [List.range_add]
      exact List.sublist_append_right _ _
    exact hsub.trans (List.range_sublist.mpr hdn)

theorem generate_positions_sublist (dx dy width height spacing : ℚ)
    (hpx : 0 < width + spacing / 2) (hpy : 0 < height + spacing / 2)
    {er' er : ℚ} (h0 : 0 ≤ er') (hle : er' ≤ er) :
    (generate_positions dx dy width height spacing er').Sublist
      (generate_positions dx dy width height spacing er) := by
  have hsq : er' ^ 2 ≤ er ^ 2 := pow_le_pow_left₀ h0 hle 2
  simp only [generate_positions]
  apply sublist_flatMap_mono
  · apply gridRange_sublist
    · exact Int.ceil_mono ((div_le_div_iff_of_pos_right hpx).mpr (by linarith))
    · exact Int.floor_mono ((div_le_div_iff_of_pos_right hpx).mpr (by linarith))
  · intro i
    apply sublist_filterMap_mono
    · apply gridRange_sublist
      · exact Int.ceil_mono ((div_le_div_iff_of_pos_right hpy).mpr (by linarith))
      · exact Int.floor_mono ((div_le_div_iff_of_pos_right hpy).mpr (by linarith))
    · intro j p hp
      split_ifs at hp with hnotch hcorners
      rw [if_neg hnotch, if_pos ?_]
      · exact hp
      · obtain ⟨c1, c2, c3, c4⟩ := (corners_ok_iff _ _ _ _ _).mp hcorners
        exact (corners_ok_iff _ _ _ _ _).mpr
          ⟨le_trans c1 hsq, le_trans c2 hsq, le_trans c3 hsq, le_trans c4 hsq⟩

theorem generate_positions_length_mono (dx dy width height spacing : ℚ)
    (hpx : 0 < width + spacing / 2) (hpy : 0 < height + spacing / 2)
    {er' er : ℚ} (h0 : 0 ≤ er') (hle : er' ≤ er) :
    (generate_positions dx dy width height spacing er').length ≤
      (generate_positions dx dy width height spacing er).length :=
  (generate_positions_sublist dx dy width height spacing hpx hpy h0 hle).length_le

/-- C5: holding width, height and spacing fixed, shrinking the effective
radius (that is, increasing the edge exclusion) never increases the
max-count layout's count. -/
theorem C5_monotone_in_exclusion (width height spacing : ℚ)
    (hw : 0 < width) (hh : 0 < height) (hs : 0 < spacing)
    {er' er : ℚ} (h0 : 0 < er') (hle : er' ≤ er) :
    (find_optimal_layouts width height spacing er').1.count ≤
      (find_optimal_layouts width height spacing er).1.count := by
  have hpx : 0 < width + spacing / 2 := by linarith
  have hpy : 0 < height + spacing / 2 := by linarith
  rw [find_optimal_fst, find_optimal_fst]
  apply foldl_maxStep_count_le_count
  · rw [init_max_count, init_max_count]
    exact generate_positions_length_mono 0 0 width height spacing hpx hpy (le_of_lt h0) hle
  · intro o _
    exact generate_positions_length_mono o.1 o.2 width height spacing hpx hpy
      (le_of_lt h0) hle

/-- C5 witness: the monotonicity instantiated at the concrete input
`width = 8`, `height = 2`, `spacing = 1/5` with radii `4 ≤ 5`. -/
theorem C5_witness :
    (0 : ℚ) < 8 ∧ (0 : ℚ) < 2 ∧ (0 : ℚ) < 1/5 ∧ (0 : ℚ) < 4 ∧ (4 : ℚ) ≤ 5 ∧
    (find_optimal_layouts 8 2 (1/5) 4).1.count ≤
      (find_optimal_layouts 8 2 (1/5) 5).1.count :=
  ⟨by norm_num, by norm_num, by norm_num, by norm_num, by norm_num,
    C5_monotone_in_exclusion 8 2 (1/5) (by norm_num) (by norm_num) (by norm_num)
      (by norm_num) (by norm_num)⟩

/-- C3 (amended): the max-count objective retains a layout whose count is
maximal among all evaluated layouts, but ties on the highest count are kept
first-encountered (the running best is replaced only on strictly greater
count); balance is not consulted for this objective. -/
theorem C3_max_count_maximal (width height spacing effective_radius : ℚ) :
    ∀ L ∈ evaluatedLayouts width height spacing effective_radius,
      L.count ≤ (find_optimal_layouts width height spacing effective_radius).1.count := by
  intro L hL
  rw [find_optimal_fst]
  simp only [evaluatedLayouts] at hL
  rcases List.mem_cons.mp hL with rfl | hL
  · refine le_trans (le_of_eq ?_) (foldl_maxStep_count_mono _ _ _ _ _ _)
    exact (init_max_count _ _).symm
  · obtain ⟨o, ho, rfl⟩ := List.mem_map.mp hL
    exact foldl_maxStep_count_ge width height spacing effective_radius _ _ o ho

/-- C3 witness (amended theorem): the centered layout at the input
`width = height = 2`, `spacing = 1`, `effectiveRadius = 5` is an evaluated
layout and its count is bounded by the retained max-count layout's count. -/
theorem C3_witness :
    mkLayout (generate_positions 0 0 2 2 1 5) 5 ∈ evaluatedLayouts 2 2 1 5 ∧
    (mkLayout (generate_positions 0 0 2 2 1 5) 5).count ≤
      (find_optimal_layouts 2 2 1 5).1.count :=
  ⟨List.mem_cons_self _ _,
    C3_max_count_maximal 2 2 1 5 _ (List.mem_cons_self _ _)⟩

set_option maxRecDepth 40000 in
theorem offsets_take_5 :
    (offsets 8 2 (1/5)).take 5 = [(0, 0), (0, 0), (0, 0), (0, 0), (0, 7/60)] := by
  with_unfolding_all rfl

set_option maxRecDepth 40000 in
theorem offsets_length : (offsets 8 2 (1/5)).length = 400 := by
  with_unfolding_all rfl

set_option maxRecDepth 40000 in
theorem init_max_eval :
    (if 0 < (generate_positions 0 0 8 2 (1/5) 5).length
      then mkLayout (generate_positions 0 0 8 2 (1/5) 5) 5 else best0) =
    ⟨1, [(0, 0)], 1⟩ := by
  with_unfolding_all rfl

set_option maxRecDepth 40000 in
theorem maxStep_zero_offset :
    maxStep 8 2 (1/5) 5 ⟨1, [(0, 0)], 1⟩ (0, 0) = ⟨1, [(0, 0)], 1⟩ := by
  with_unfolding_all rfl

set_option maxRecDepth 40000 in
theorem maxStep_first_update :
    maxStep 8 2 (1/5) 5 ⟨1, [(0, 0)], 1⟩ (0, 7/60) =
      ⟨2, [(0, -119/60), (0, 7/60)], 61/75⟩ := by
  with_unfolding_all rfl

set_option maxRecDepth 40000 in
theorem offsets_drop_5_counts_le_2 :
    ((offsets 8 2 (1/5)).drop 5).all
      (fun o => decide ((generate_positions o.1 o.2 8 2 (1/5) 5).length ≤ 2)) = true := by
  with_unfolding_all rfl

theorem best_max_eval :
    (find_optimal_layouts 8 2 (1/5) 5).1 = ⟨2, [(0, -119/60), (0, 7/60)], 61/75⟩ := by
  rw [find_optimal_fst, init_max_eval]
  conv_lhs => rw [← List.take_append_drop 5 (offsets 8 2 (1/5))]
  rw [List.foldl_append, offsets_take_5]
  simp only [List.foldl_cons, List.foldl_nil, maxStep_zero_offset, maxStep_first_update]
  apply foldl_maxStep_stationary
  intro o ho
  exact of_decide_eq_true (List.all_eq_true.mp offsets_drop_5_counts_le_2 o ho)

set_option maxRecDepth 40000 in
theorem mem_offsets_best_balanced : ((0 : ℚ), (21/20 : ℚ)) ∈ offsets 8 2 (1/5) := by
  have hlen : 36 < (offsets 8 2 (1/5)).length := by rw [offsets_length]; norm_num
  have hval : (offsets 8 2 (1/5)).get ⟨36, hlen⟩ = (0, 21/20) := by
    with_unfolding_all rfl
  rw [← hval]
  exact List.get_mem _ _ _

set_option maxRecDepth 40000 in
theorem cand_best_balanced_eval :
    mkLayout (generate_positions 0 (21/20) 8 2 (1/5) 5) 5 =
      ⟨2, [(0, -21/20), (0, 21/20)], 1⟩ := by
  with_unfolding_all rfl

/-- C3 (counterexample): at `width = 8`, `height = 2`, `spacing = 1/5`,
`effectiveRadius = 5` the retained max-count layout has count `2` and
balance `61/75`, while the evaluated layout at offset `(0, 21/20)` also has
count `2` but balance `1`; ties on the highest count are therefore not
broken by higher balance, refuting the claimed selection rule. -/
theorem C3_counterexample : ¬ maxCountSelection 8 2 (1/5) 5 := by
  intro hcl
  have hmem : mkLayout (generate_positions 0 (21/20) 8 2 (1/5) 5) 5 ∈
      evaluatedLayouts 8 2 (1/5) 5 := by
    simp only [evaluatedLayouts]
    exact List.mem_cons_of_mem _
      (List.mem_map.mpr ⟨(0, 21/20), mem_offsets_best_balanced, rfl⟩)
  obtain ⟨-, htie⟩ := hcl _ hmem
  have hcount : (mkLayout (generate_positions 0 (21/20) 8 2 (1/5) 5) 5).count =
      (find_optimal_layouts 8 2 (1/5) 5).1.count := by
    rw [cand_best_balanced_eval, best_max_eval]
  have hbal := htie hcount
  rw [cand_best_balanced_eval, best_max_eval] at hbal
  norm_num at hbal

end WaferLayout
